import Mathlib

/-!
Verification of the Blender game-asset exporter (`export.py`).

The embedding below translates the exporter's core pipeline into Lean:

* scalar values are modelled as rationals (`Rat`); the byte-level float32
  encoding is not needed by any claim, so the output stream is modelled at
  the granularity of written primitives (`Prim`);
* the Blender session state the exporter mutates (current frame, active
  action, armature pose-evaluation mode) is an explicit `Session` record,
  and every write-function of the source becomes a value of `ExportM`:
  a state transformer that also accumulates the primitives written so far
  and may abort (modelling a raised Python exception such as
  `struct.error` or `UnicodeEncodeError`); an aborted run keeps the
  primitives already written, matching a partially written file;
* the `mathutils` library functions the source calls (`inverted`,
  `to_translation`, `to_quaternion`, `to_scale`) are collaborator code,
  not part of this repository; they are modelled as an abstract record
  `MathUtils` of functions, so theorems about which matrices are fed to
  them and in which order the components are written hold for every
  implementation of the library.
-/

namespace GameExport

/-- A written primitive, as produced by the `write*` helpers of the source.
`struct.pack` with formats `?`, `B`, `H`, `I`, `f` and `str.encode`
produce these in order; the claims are about which primitives are written
and in what order, not about their byte images. -/
inductive Prim where
  | pBool : Bool → Prim
  | u8 : Int → Prim
  | u16 : Int → Prim
  | u32 : Int → Prim
  | f32 : Rat → Prim
  | bytes : List Nat → Prim
  deriving DecidableEq

/-- 2-component vector (UV coordinates). -/
structure Vec2 where
  x : Rat
  y : Rat
  deriving DecidableEq

/-- 3-component vector (positions, normals, translations, scales). -/
structure Vec3 where
  x : Rat
  y : Rat
  z : Rat
  deriving DecidableEq

/-- 4-component vector: one row of a `mathutils.Matrix`. -/
structure Vec4 where
  x : Rat
  y : Rat
  z : Rat
  w : Rat
  deriving DecidableEq

/-- Quaternion in mathutils layout: fields `w`, `x`, `y`, `z`. -/
structure Quat4 where
  w : Rat
  x : Rat
  y : Rat
  z : Rat
  deriving DecidableEq

/-- A 4x4 matrix, stored as its four rows, matching `mathutils.Matrix`,
which iterates rows first and the four components of each row second. -/
structure Mat4 where
  row0 : Vec4
  row1 : Vec4
  row2 : Vec4
  row3 : Vec4
  deriving DecidableEq

def Vec4.dot (a b : Vec4) : Rat :=
  a.x * b.x + a.y * b.y + a.z * b.z + a.w * b.w

def Mat4.col0 (m : Mat4) : Vec4 := ⟨m.row0.x, m.row1.x, m.row2.x, m.row3.x⟩

def Mat4.col1 (m : Mat4) : Vec4 := ⟨m.row0.y, m.row1.y, m.row2.y, m.row3.y⟩

def Mat4.col2 (m : Mat4) : Vec4 := ⟨m.row0.z, m.row1.z, m.row2.z, m.row3.z⟩

def Mat4.col3 (m : Mat4) : Vec4 := ⟨m.row0.w, m.row1.w, m.row2.w, m.row3.w⟩

/-- Matrix product, the source's `@` operator on `mathutils.Matrix`. -/
def Mat4.mul (a b : Mat4) : Mat4 :=
  ⟨⟨a.row0.dot b.col0, a.row0.dot b.col1, a.row0.dot b.col2, a.row0.dot b.col3⟩,
   ⟨a.row1.dot b.col0, a.row1.dot b.col1, a.row1.dot b.col2, a.row1.dot b.col3⟩,
   ⟨a.row2.dot b.col0, a.row2.dot b.col1, a.row2.dot b.col2, a.row2.dot b.col3⟩,
   ⟨a.row3.dot b.col0, a.row3.dot b.col1, a.row3.dot b.col2, a.row3.dot b.col3⟩⟩

/-- The identity matrix (`mathutils.Matrix.Identity(4)`). -/
def mat4Id : Mat4 :=
  ⟨⟨1, 0, 0, 0⟩, ⟨0, 1, 0, 0⟩, ⟨0, 0, 1, 0⟩, ⟨0, 0, 0, 1⟩⟩

/-- The 16 entries of a matrix in row-major order: the source's
`for vector in matrix: for float in vector` iteration in `writeJoints`. -/
def mat4RowMajor (m : Mat4) : List Rat :=
  [m.row0.x, m.row0.y, m.row0.z, m.row0.w,
   m.row1.x, m.row1.y, m.row1.z, m.row1.w,
   m.row2.x, m.row2.y, m.row2.z, m.row2.w,
   m.row3.x, m.row3.y, m.row3.z, m.row3.w]

/-- The `mathutils` library operations the exporter calls on matrices.
They are collaborator code (not part of this repository), so they are
kept abstract: every theorem quantifying over a `MathUtils` holds for
any implementation of the library. -/
structure MathUtils where
  inverted : Mat4 → Mat4
  toTranslation : Mat4 → Vec3
  toQuaternion : Mat4 → Quat4
  toScale : Mat4 → Vec3

/-- A concrete instantiation of the library record, used to evaluate the
model on closed inputs. -/
def constMathUtils : MathUtils :=
  ⟨id, fun _ => ⟨0, 0, 0⟩, fun _ => ⟨1, 0, 0, 0⟩, fun _ => ⟨1, 1, 1⟩⟩

/-- The exporter's `Vertex` class: position, UV, normal, four joint
indices and four joint weights.  `__eq__` compares `__dict__`, i.e. all
five fields structurally, which is exactly the derived equality here. -/
structure Vertex where
  position : Vec3
  uv : Vec2
  normal : Vec3
  jointIndices : List Int
  jointWeights : List Rat
  deriving DecidableEq

/-- The exporter's `Face` class: a list of vertex indices (three after
triangulation). -/
structure Face where
  vertexIndices : List Nat
  deriving DecidableEq

/-- `Vertex.__hash__` of the source returns `hash(self.position.x)`:
the hash reads the x-coordinate of the position and nothing else.
Python's numeric `hash` itself is interpreter-defined, so it is taken as
an abstract function `floatHash` of the value. -/
def vertexHash (floatHash : Rat → Int) (v : Vertex) : Int :=
  floatHash v.position.x

/-- Armature pose-evaluation mode, `armature.data.pose_position`:
`"REST"` or `"POSE"`. -/
inductive PoseMode where
  | rest
  | pose
  deriving DecidableEq

/-- A Blender action (`bpy.types.Action`): its name and the integer
truncations `int(frame_range.x)`, `int(frame_range.y)` of its frame
range, which is all the exporter reads from it. -/
structure Action where
  name : String
  frameStart : Int
  frameEnd : Int
  deriving DecidableEq

/-- The shared Blender session state the exporter reads and mutates:
current scene frame, the armature's active action, and the armature's
pose-evaluation mode. -/
structure Session where
  frameCurrent : Int
  activeAction : Option Action
  posePosition : PoseMode
  deriving DecidableEq

/-- A bone of the armature's ordered bone list: its name, the position
of its parent in the same list (`none` for a root), and its rest-pose
local matrix `bone.matrix_local`. -/
structure Bone where
  name : String
  parent : Option Nat
  matrixLocal : Mat4

/-- The armature collaborator: the ordered bone list, and the pose
matrix `pose.bones[i].matrix` the depsgraph yields for bone `i` once the
active action and current frame are set. -/
structure Armature where
  bones : List Bone
  poseMatrix : Option Action → Int → Nat → Mat4

/-- An export computation: it transforms the session state, accumulates
the primitives written to the open file, and either returns a value or
aborts (a raised exception).  On abort the primitives already written
remain — the file is left partially written. -/
def ExportM (α : Type) : Type :=
  Session → Session × List Prim × Option α

def pureE {α : Type} (a : α) : ExportM α := fun s => (s, [], some a)

def failE {α : Type} : ExportM α := fun s => (s, [], none)

def bindE {α β : Type} (x : ExportM α) (f : α → ExportM β) : ExportM β := fun s =>
  match x s with
  | (s1, out, none) => (s1, out, none)
  | (s1, out, some a) =>
    match f a s1 with
    | (s2, out2, r) => (s2, out ++ out2, r)

def seqE {α β : Type} (x : ExportM α) (y : ExportM β) : ExportM β :=
  bindE x (fun _ => y)

def emitE (p : Prim) : ExportM Unit := fun s => (s, [p], some ())

/-- `bpy.context.scene.frame_set(f)`. -/
def frameSet (f : Int) : ExportM Unit :=
  fun s => ({s with frameCurrent := f}, [], some ())

/-- `armature.animation_data.action = a`. -/
def setAction (a : Option Action) : ExportM Unit :=
  fun s => ({s with activeAction := a}, [], some ())

/-- `setArmaturePosition` of the source: sets `pose_position`, tags the
armature for re-evaluation and re-sets the current frame to itself, so
the session's frame is unchanged. -/
def setArmaturePosition (p : PoseMode) : ExportM Unit :=
  fun s => ({s with posePosition := p}, [], some ())

def getFrame : ExportM Int := fun s => (s, [], some s.frameCurrent)

def getAction : ExportM (Option Action) := fun s => (s, [], some s.activeAction)

def getPosePosition : ExportM PoseMode := fun s => (s, [], some s.posePosition)

/-- `armature.pose.bones[i].matrix` under the session's active action and
current frame. -/
def getPoseMatrix (armature : Armature) (i : Nat) : ExportM Mat4 :=
  fun s => (s, [], some (armature.poseMatrix s.activeAction s.frameCurrent i))

/-- `writeUint8`: `struct.pack("B", value)` requires `0 <= value < 256`
and raises `struct.error` otherwise, before anything reaches the file. -/
def writeUint8 (value : Int) : ExportM Unit :=
  if 0 ≤ value ∧ value < 256 then emitE (Prim.u8 value) else failE

/-- `writeUint16`: `struct.pack("H", value)` requires `0 <= value < 65536`. -/
def writeUint16 (value : Int) : ExportM Unit :=
  if 0 ≤ value ∧ value < 65536 then emitE (Prim.u16 value) else failE

/-- `writeUint32`: `struct.pack("I", value)` requires `0 <= value < 2^32`. -/
def writeUint32 (value : Int) : ExportM Unit :=
  if 0 ≤ value ∧ value < 4294967296 then emitE (Prim.u32 value) else failE

/-- `writeFloat`: `struct.pack("f", value)` always succeeds on the values
this exporter produces. -/
def writeFloat (value : Rat) : ExportM Unit := emitE (Prim.f32 value)

/-- `writeBool`. -/
def writeBool (value : Bool) : ExportM Unit := emitE (Prim.pBool value)

/-- Whether every character of the string is ASCII, the success condition
of `str.encode("ascii")`. -/
def allAscii (text : String) : Bool :=
  text.data.all (fun c => c.toNat < 128)

/-- `writeString`: `text.encode("ascii")` yields the code points of the
characters as bytes, and raises `UnicodeEncodeError` when any character
is non-ASCII. -/
def writeString (text : String) : ExportM Unit :=
  if allAscii text then emitE (Prim.bytes (text.data.map Char.toNat)) else failE

/-- Sequence of `writeFloat` calls, one per list element. -/
def writeFloatList : List Rat → ExportM Unit
  | [] => pureE ()
  | v :: rest => seqE (writeFloat v) (writeFloatList rest)

/-- The per-vertex body of `writeVertices`: eight floats (position, UV,
normal), then — when `writeJointBindings` is truthy — the four joint
indices as `uint8` and the four joint weights as `float32`
(`vertex.jointIndices[i]` / `vertex.jointWeights[i]` for `i in range(4)`). -/
def writeVertexRecord (writeJointBindings : Bool) (vertex : Vertex) : ExportM Unit :=
  seqE (writeFloatList
      [vertex.position.x, vertex.position.y, vertex.position.z,
       vertex.uv.x, vertex.uv.y,
       vertex.normal.x, vertex.normal.y, vertex.normal.z])
  (if writeJointBindings then
    seqE (writeUint8 (vertex.jointIndices.getD 0 0))
    (seqE (writeUint8 (vertex.jointIndices.getD 1 0))
    (seqE (writeUint8 (vertex.jointIndices.getD 2 0))
    (seqE (writeUint8 (vertex.jointIndices.getD 3 0))
    (writeFloatList
      [vertex.jointWeights.getD 0 0, vertex.jointWeights.getD 1 0,
       vertex.jointWeights.getD 2 0, vertex.jointWeights.getD 3 0]))))
  else pureE ())

/-- `writeVertices(file, vertices, writeJointBindings)`. -/
def writeVertices (vertices : List Vertex) (writeJointBindings : Bool) : ExportM Unit :=
  match vertices with
  | [] => pureE ()
  | v :: rest => seqE (writeVertexRecord writeJointBindings v) (writeVertices rest writeJointBindings)

/-- One `writeUint16` per index. -/
def writeIndexList : List Nat → ExportM Unit
  | [] => pureE ()
  | i :: rest => seqE (writeUint16 (i : Int)) (writeIndexList rest)

/-- `writeFaces(file, faces)`: each face's vertex indices as `uint16`. -/
def writeFaces : List Face → ExportM Unit
  | [] => pureE ()
  | f :: rest => seqE (writeIndexList f.vertexIndices) (writeFaces rest)

/-- `normalizeJointWeights(weights)`: starts from `[0,0,0,0]`, and when
the sum of the input weights is nonzero overwrites slot `i` with
`weights[i]/total` for each input position `i`. -/
def normalizeJointWeights (weights : List Rat) : List Rat :=
  let totalWeights := weights.sum
  if totalWeights = 0 then [0, 0, 0, 0]
  else weights.enum.foldl (fun result p => result.set p.1 (p.2 / totalWeights)) [0, 0, 0, 0]

/-- Lookup in the `vertices` dict of `getDataFromMeshObjects`.  The dict
is keyed by `Vertex` values: Python resolves a key through `__hash__`
buckets and then `__eq__`; since the source's hash is consistent with its
structural equality (equal vertices share `position.x`), the dict is
observationally the first-match-by-equality map modelled here, in
insertion order. -/
def dictGet (vertices : List (Vertex × Nat)) (v : Vertex) : Option Nat :=
  match vertices.find? (fun p => decide (p.1 = v)) with
  | some p => some p.2
  | none => none

/-- Lines 124–126 of the source: if the vertex is not yet in the dict it
is inserted with index `len(vertices)`; either way the vertex's index is
returned (`faceIndices.append(vertices[vertex])`). -/
def internVertex (m : List (Vertex × Nat)) (v : Vertex) : List (Vertex × Nat) × Nat :=
  match dictGet m v with
  | some i => (m, i)
  | none => (m ++ [(v, m.length)], m.length)

/-- Interning a whole stream of corner vertices in order, returning the
final dict and the index assigned to each stream element. -/
def internAll (m : List (Vertex × Nat)) : List Vertex → List (Vertex × Nat) × List Nat
  | [] => (m, [])
  | v :: vs =>
    let r1 := internVertex m v
    let r2 := internAll r1.1 vs
    (r2.1, r1.2 :: r2.2)

/-- Append a vertex to the list of distinct vertices seen so far, unless
it already occurs. -/
def addNew (l : List Vertex) (v : Vertex) : List Vertex :=
  if v ∈ l then l else l ++ [v]

/-- The distinct vertices of a stream in order of first appearance. -/
def firstSeen (vs : List Vertex) : List Vertex :=
  vs.foldl addNew []

/-- A vertex list paired with consecutive indices starting at `n`. -/
def enumFrom (n : Nat) : List Vertex → List (Vertex × Nat)
  | [] => []
  | v :: vs => (v, n) :: enumFrom (n + 1) vs

/-- `armature.data.bones.find(name)` (also used for
`bpy_prop_collection.find` generally): index of the first bone with the
given name, `-1` when there is none. -/
def bonesFind (s : String) : List Bone → Int
  | [] => -1
  | b :: rest =>
    if b.name = s then 0
    else
      let r := bonesFind s rest
      if r = -1 then -1 else r + 1

/-- The name of the bone at position `j` of the bone list. -/
def boneNameAt (bones : List Bone) (j : Nat) : String :=
  match bones.get? j with
  | some b => b.name
  | none => ""

/-- Lines 113–121 of `getDataFromMeshObjects`: starting from
`jointIndices = [0,0,0,0]` and `jointWeights = [0,0,0,0]`, the first four
vertex-group memberships of the corner's source vertex each store
`armature.data.bones.find(groupName)` and the membership weight at their
slot.  A membership is a pair of the group index (into the object's
vertex-group list) and the weight. -/
def computeJointBindings (vertexGroupNames : List String) (bones : List Bone)
    (groups : List (Nat × Rat)) : List Int × List Rat :=
  groups.enum.foldl
    (fun acc p =>
      if p.1 < 4 then
        let boneName := vertexGroupNames.getD p.2.1 ""
        (acc.1.set p.1 (bonesFind boneName bones), acc.2.set p.1 p.2.2)
      else acc)
    ([0, 0, 0, 0], [0, 0, 0, 0])

/-- The record written by `writeJoints` for one bone: the parent's index
found by name (`0` for a root), then the 16 row-major entries of the
inverse of `transform @ bone.matrix_local`. -/
def writeJointRecord (mu : MathUtils) (bones : List Bone) (transform : Mat4)
    (bone : Bone) : ExportM Unit :=
  seqE (writeUint8 (match bone.parent with
      | some j => bonesFind (boneNameAt bones j) bones
      | none => 0))
  (writeFloatList (mat4RowMajor (mu.inverted (Mat4.mul transform bone.matrixLocal))))

/-- The loop of `writeJoints` over the armature's bone list; `bones` is
the full list used for the name lookups. -/
def writeJointsLoop (mu : MathUtils) (bones : List Bone) (transform : Mat4) :
    List Bone → ExportM Unit
  | [] => pureE ()
  | b :: rest => seqE (writeJointRecord mu bones transform b) (writeJointsLoop mu bones transform rest)

/-- `writeJoints(file, armature, transform)`. -/
def writeJoints (mu : MathUtils) (armature : Armature) (transform : Mat4) : ExportM Unit :=
  writeJointsLoop mu armature.bones transform armature.bones

/-- The ten floats of one pose record, in the order the source writes
them: translation x,y,z, quaternion w,x,y,z, scale x,y,z of the
parent-space pose matrix. -/
def poseFloats (mu : MathUtils) (m : Mat4) : List Rat :=
  [(mu.toTranslation m).x, (mu.toTranslation m).y, (mu.toTranslation m).z,
   (mu.toQuaternion m).w, (mu.toQuaternion m).x, (mu.toQuaternion m).y, (mu.toQuaternion m).z,
   (mu.toScale m).x, (mu.toScale m).y, (mu.toScale m).z]

/-- The body of the bone loop of `writeAnimation`: reads the bone's pose
matrix at the session's active action and current frame; a bone with a
parent yields `parent.matrix.inverted() @ bone.matrix`, a root yields
`transform @ bone.matrix`; the result is decomposed and written. -/
def writePoseBone (mu : MathUtils) (armature : Armature) (transform : Mat4)
    (i : Nat) (bone : Bone) : ExportM Unit :=
  bindE (getPoseMatrix armature i) (fun boneMatrix =>
  bindE (match bone.parent with
    | some j => bindE (getPoseMatrix armature j) (fun parentMatrix =>
        pureE (Mat4.mul (mu.inverted parentMatrix) boneMatrix))
    | none => pureE (Mat4.mul transform boneMatrix))
    (fun parentSpacePose => writeFloatList (poseFloats mu parentSpacePose)))

/-- The bone loop of `writeAnimation`, over `(index, bone)` pairs of the
armature's ordered bone list. -/
def writePoseBones (mu : MathUtils) (armature : Armature) (transform : Mat4) :
    List (Nat × Bone) → ExportM Unit
  | [] => pureE ()
  | p :: rest =>
    seqE (writePoseBone mu armature transform p.1 p.2)
    (writePoseBones mu armature transform rest)

/-- The frame loop of `writeAnimation`: advance the scene to the frame,
then write every bone's pose record. -/
def writeFrameSamples (mu : MathUtils) (armature : Armature) (transform : Mat4) :
    List Int → ExportM Unit
  | [] => pureE ()
  | f :: rest =>
    seqE (frameSet f)
    (seqE (writePoseBones mu armature transform armature.bones.enum)
    (writeFrameSamples mu armature transform rest))

/-- `range(a, b)` over integers. -/
def intRange (a b : Int) : List Int :=
  (List.range (b - a).toNat).map (fun (k : Nat) => a + (k : Int))

/-- `writeAnimation(file, armature, animation, transform)`: binds the
action as active, writes the frame count `end - start + 1` and the
action-name length as `uint32`, the name as ASCII bytes, then runs the
frame loop over `range(start, end + 1)`.  (The source's `print` of the
frame count goes to stdout, not to the file.) -/
def writeAnimation (mu : MathUtils) (armature : Armature) (animation : Action)
    (transform : Mat4) : ExportM Unit :=
  seqE (setAction (some animation))
  (seqE (writeUint32 (animation.frameEnd - animation.frameStart + 1))
  (seqE (writeUint32 (animation.name.length : Int))
  (seqE (writeString animation.name)
  (writeFrameSamples mu armature transform
    (intRange animation.frameStart (animation.frameEnd + 1))))))

/-- The loop over `bpy.data.actions` in `ExportSkeletonOperator.execute`. -/
def writeAnimations (mu : MathUtils) (armature : Armature) (transform : Mat4) :
    List Action → ExportM Unit
  | [] => pureE ()
  | a :: rest =>
    seqE (writeAnimation mu armature a transform)
    (writeAnimations mu armature transform rest)

/-- `ExportSkeletonOperator.execute`: captures the pose mode, active
action and current frame; switches the armature to posed evaluation;
writes the bone count, the joint records and all animations; then
restores the captured frame, action and pose mode.  The restore steps
are straight-line code after the writes — nothing guards them against an
exception raised while writing. -/
def executeSkeleton (mu : MathUtils) (armature : Armature) (actions : List Action)
    (transform : Mat4) : ExportM Unit :=
  bindE getPosePosition (fun originalArmaturePosition =>
  bindE getAction (fun originalAnimation =>
  bindE getFrame (fun originalFrame =>
  seqE (setArmaturePosition PoseMode.pose)
  (seqE (writeUint8 (armature.bones.length : Int))
  (seqE (writeJoints mu armature transform)
  (seqE (writeUint32 (actions.length : Int))
  (seqE (writeAnimations mu armature transform actions)
  (seqE (frameSet originalFrame)
  (seqE (setAction originalAnimation)
  (setArmaturePosition originalArmaturePosition))))))))))

/-- The write phase of `ExportMeshOperator.execute` (lines 224–228), run
on the data extracted by `getDataFromMeshObjects`: the skeleton flag,
the face and vertex counts as `uint16`, the face indices, then the
vertex records.  No capacity check precedes any write. -/
def executeMeshWrites (hasSkeleton : Bool) (faces : List Face)
    (vertices : List Vertex) : ExportM Unit :=
  seqE (writeBool hasSkeleton)
  (seqE (writeUint16 (faces.length : Int))
  (seqE (writeUint16 (vertices.length : Int))
  (seqE (writeFaces faces)
  (writeVertices vertices hasSkeleton))))

/-- The parent-space pose matrix the bone loop computes for the pair
`(i, bone)` of the bone list, given the active action `a` and frame `f`:
`parent.matrix.inverted() @ bone.matrix` when the bone has a parent,
`transform @ bone.matrix` for a root. -/
def poseSample (mu : MathUtils) (armature : Armature) (transform : Mat4)
    (a : Option Action) (f : Int) (p : Nat × Bone) : Mat4 :=
  match p.2.parent with
  | some j => Mat4.mul (mu.inverted (armature.poseMatrix a f j)) (armature.poseMatrix a f p.1)
  | none => Mat4.mul transform (armature.poseMatrix a f p.1)

/-- The primitives one frame of the animation loop writes: every bone's
pose record, bones in list order. -/
def framePrims (mu : MathUtils) (armature : Armature) (transform : Mat4)
    (a : Option Action) (f : Int) : List Prim :=
  armature.bones.enum.flatMap
    (fun p => (poseFloats mu (poseSample mu armature transform a f p)).map Prim.f32)

/-- The record `writeJoints` emits for one bone, given the parent index
it resolves: the index as one `uint8`, then the 16 inverse-bind floats. -/
def jointRecordPrims (mu : MathUtils) (transform : Mat4) (parentIndex : Int)
    (bone : Bone) : List Prim :=
  Prim.u8 parentIndex ::
    (mat4RowMajor (mu.inverted (Mat4.mul transform bone.matrixLocal))).map Prim.f32

-- Concrete inputs used to evaluate the model on closed instances.

/-- A concrete vertex. -/
def vA : Vertex := ⟨⟨1, 2, 3⟩, ⟨0, 0⟩, ⟨0, 0, 1⟩, [0, 0, 0, 0], [0, 0, 0, 0]⟩

/-- A concrete vertex distinct from `vA`. -/
def vB : Vertex := ⟨⟨4, 5, 6⟩, ⟨0, 1⟩, ⟨0, 0, 1⟩, [0, 0, 0, 0], [0, 0, 0, 0]⟩

/-- A vertex sharing `vA`'s position but with a different UV: equal to
`vA` on the hashed field, different on an equality-relevant field. -/
def vAuv : Vertex := ⟨⟨1, 2, 3⟩, ⟨7, 8⟩, ⟨0, 0, 1⟩, [0, 0, 0, 0], [0, 0, 0, 0]⟩

/-- A corner stream that revisits `vA` after seeing `vB`. -/
def demoStream : List Vertex := [vA, vB, vA]

/-- A one-bone armature whose pose evaluation always yields the identity
matrix. -/
def demoArm : Armature := ⟨[⟨"Root", none, mat4Id⟩], fun _ _ _ => mat4Id⟩

/-- A two-bone armature: a root and one child of the root. -/
def demoArm2 : Armature :=
  ⟨[⟨"Root", none, mat4Id⟩, ⟨"Child", some 0, mat4Id⟩], fun _ _ _ => mat4Id⟩

/-- A session in rest mode at frame 5 with no active action. -/
def demoSession : Session := ⟨5, none, PoseMode.rest⟩

/-- An action whose name contains a non-ASCII character. -/
def badAction : Action := ⟨"é", 1, 1⟩

/-- A plain ASCII-named two-frame action. -/
def goodAction : Action := ⟨"A", 1, 2⟩

/-- A face referencing vertex 0 three times. -/
def demoFace : Face := ⟨[0, 0, 0]⟩

/-- A vertex-group name that matches no bone of `demoArm`. -/
def missingGroupName : String := "NoSuchBone"

/-- The vertex whose joint bindings come from a vertex group with no
matching bone: group 0 (named `missingGroupName`) with weight 1 against
`demoArm`'s single bone `"Root"`. -/
def unmatchedVertex : Vertex :=
  ⟨⟨0, 0, 0⟩, ⟨0, 0⟩, ⟨0, 0, 1⟩,
   (computeJointBindings [missingGroupName] demoArm.bones [(0, 1)]).1,
   normalizeJointWeights (computeJointBindings [missingGroupName] demoArm.bones [(0, 1)]).2⟩

-- Basic unfolding lemmas for the monad.

theorem bindE_eq {α β : Type} (x : ExportM α) (f : α → ExportM β) (s : Session) :
    bindE x f s =
      match x s with
      | (s1, out, none) => (s1, out, none)
      | (s1, out, some a) =>
        match f a s1 with
        | (s2, out2, r) => (s2, out ++ out2, r) := rfl

theorem bindE_of_ok {α β : Type} {x : ExportM α} {s s1 : Session} {out : List Prim}
    {a : α} (f : α → ExportM β) (h : x s = (s1, out, some a)) :
    bindE x f s =
      match f a s1 with
      | (s2, out2, r) => (s2, out ++ out2, r) := by
  simp [bindE, h]

theorem bindE_of_fail {α β : Type} {x : ExportM α} {s s1 : Session} {out : List Prim}
    (f : α → ExportM β) (h : x s = (s1, out, none)) :
    bindE x f s = (s1, out, none) := by
  simp [bindE, h]

theorem seqE_of_ok {α β : Type} {x : ExportM α} {s s1 : Session} {out : List Prim}
    {a : α} (y : ExportM β) (h : x s = (s1, out, some a)) :
    seqE x y s =
      match y s1 with
      | (s2, out2, r) => (s2, out ++ out2, r) := by
  simp [seqE, bindE, h]

theorem seqE_out {α β : Type} {x : ExportM α} {y : ExportM β} {s s1 s2 : Session}
    {o1 o2 : List Prim} {a : α} {r : Option β}
    (hx : x s = (s1, o1, some a)) (hy : y s1 = (s2, o2, r)) :
    seqE x y s = (s2, o1 ++ o2, r) := by
  simp [seqE, bindE, hx, hy]

theorem seqE_fail {α β : Type} {x : ExportM α} {s s1 : Session} {o1 : List Prim}
    (y : ExportM β) (hx : x s = (s1, o1, none)) :
    seqE x y s = (s1, o1, none) := by
  simp [seqE, bindE, hx]

-- Output of the write loops.

theorem writeFloatList_out (l : List Rat) (s : Session) :
    writeFloatList l s = (s, l.map Prim.f32, some ()) := by
  induction l with
  | nil => rfl
  | cons v rest ih => simp [writeFloatList, seqE, bindE, writeFloat, emitE, ih]

theorem writePoseBone_out (mu : MathUtils) (armature : Armature) (transform : Mat4)
    (i : Nat) (bone : Bone) (s : Session) :
    writePoseBone mu armature transform i bone s =
      (s, (poseFloats mu (poseSample mu armature transform s.activeAction s.frameCurrent
            (i, bone))).map Prim.f32, some ()) := by
  cases hp : bone.parent with
  | none =>
    simp [writePoseBone, poseSample, bindE, getPoseMatrix, pureE, hp, writeFloatList_out]
  | some j =>
    simp [writePoseBone, poseSample, bindE, getPoseMatrix, pureE, hp, writeFloatList_out]

theorem writePoseBones_out (mu : MathUtils) (armature : Armature) (transform : Mat4)
    (ps : List (Nat × Bone)) (s : Session) :
    writePoseBones mu armature transform ps s =
      (s, ps.flatMap (fun p =>
        (poseFloats mu (poseSample mu armature transform s.activeAction s.frameCurrent p)).map
          Prim.f32), some ()) := by
  induction ps with
  | nil => rfl
  | cons p rest ih =>
    obtain ⟨i, b⟩ := p
    rw [writePoseBones, seqE_out (writePoseBone_out mu armature transform i b s) ih]
    simp

theorem writeFrameSamples_out (mu : MathUtils) (armature : Armature) (transform : Mat4)
    (frames : List Int) (s : Session) :
    ∃ s' : Session,
      writeFrameSamples mu armature transform frames s =
        (s', frames.flatMap (fun f => framePrims mu armature transform s.activeAction f),
         some ())
      ∧ s'.activeAction = s.activeAction ∧ s'.posePosition = s.posePosition := by
  induction frames generalizing s with
  | nil => exact ⟨s, rfl, rfl, rfl⟩
  | cons f rest ih =>
    obtain ⟨s', hrec, ha, hp⟩ := ih {s with frameCurrent := f}
    refine ⟨s', ?_, ha, hp⟩
    have h1 : frameSet f s = ({s with frameCurrent := f}, [], some ()) := rfl
    have h2 := writePoseBones_out mu armature transform armature.bones.enum
      {s with frameCurrent := f}
    rw [writeFrameSamples, seqE_out h1 (seqE_out h2 hrec)]
    simp [framePrims]

/-- Shared description of `writeAnimation`'s behaviour when the name is
ASCII and the counts fit `uint32`: the frame count `end - start + 1`,
the name length and the ASCII name bytes, then the frame-major pose
stream over `range(start, end + 1)`; the active action is left bound to
the animation and the pose mode is untouched. -/
theorem writeAnimation_out (mu : MathUtils) (armature : Armature) (animation : Action)
    (transform : Mat4) (s : Session)
    (hA : allAscii animation.name = true)
    (h1 : animation.frameStart ≤ animation.frameEnd)
    (h2 : animation.frameEnd - animation.frameStart + 1 < 4294967296)
    (h3 : (animation.name.length : Int) < 4294967296) :
    ∃ s' : Session,
      writeAnimation mu armature animation transform s =
        (s', Prim.u32 (animation.frameEnd - animation.frameStart + 1)
          :: Prim.u32 (animation.name.length : Int)
          :: Prim.bytes (animation.name.data.map Char.toNat)
          :: (intRange animation.frameStart (animation.frameEnd + 1)).flatMap
              (fun f => framePrims mu armature transform (some animation) f),
         some ())
      ∧ s'.activeAction = some animation ∧ s'.posePosition = s.posePosition := by
  set s3 : Session := {s with activeAction := some animation} with hs3
  obtain ⟨s', hfs, ha, hp⟩ := writeFrameSamples_out mu armature transform
    (intRange animation.frameStart (animation.frameEnd + 1)) s3
  have hc1 : (0 : Int) ≤ animation.frameEnd - animation.frameStart + 1
      ∧ animation.frameEnd - animation.frameStart + 1 < 4294967296 := ⟨by omega, h2⟩
  have hc2 : (0 : Int) ≤ (animation.name.length : Int)
      ∧ (animation.name.length : Int) < 4294967296 := ⟨Int.natCast_nonneg _, h3⟩
  have e1 : setAction (some animation) s = (s3, [], some ()) := rfl
  have e2 : writeUint32 (animation.frameEnd - animation.frameStart + 1) s3 =
      (s3, [Prim.u32 (animation.frameEnd - animation.frameStart + 1)], some ()) := by
    simp [writeUint32, hc1, emitE]
  have e3 : writeUint32 (animation.name.length : Int) s3 =
      (s3, [Prim.u32 (animation.name.length : Int)], some ()) := by
    simp [writeUint32, hc2, emitE]
  have e4 : writeString animation.name s3 =
      (s3, [Prim.bytes (animation.name.data.map Char.toNat)], some ()) := by
    simp [writeString, hA, emitE]
  have hall := seqE_out e1 (seqE_out e2 (seqE_out e3 (seqE_out e4 hfs)))
  refine ⟨s', ?_, by rw [ha], by rw [hp]⟩
  rw [writeAnimation, hall]
  simp

theorem length_flatMap_const {α β : Type} (f : α → List β) (c : Nat)
    (h : ∀ a, (f a).length = c) (l : List α) : (l.flatMap f).length = l.length * c := by
  induction l with
  | nil => simp
  | cons a l ih =>
    simp only [List.flatMap_cons, List.length_append, h a, ih, List.length_cons]
    ring

theorem framePrims_length (mu : MathUtils) (armature : Armature) (transform : Mat4)
    (a : Option Action) (f : Int) :
    (framePrims mu armature transform a f).length = armature.bones.length * 10 := by
  unfold framePrims
  rw [length_flatMap_const _ 10 (fun p => by simp [poseFloats]), List.enum_length]

theorem intRange_length (a b : Int) : (intRange a b).length = (b - a).toNat := by
  rw [intRange, List.length_map, List.length_range]

theorem intRange_pairwise (a b : Int) : (intRange a b).Pairwise (· < ·) := by
  rw [intRange, List.pairwise_map]
  exact (List.pairwise_lt_range _).imp (fun hij => by omega)

-- Lemmas on the vertex-deduplication dict.

theorem dictGet_cons (p : Vertex × Nat) (m : List (Vertex × Nat)) (v : Vertex) :
    dictGet (p :: m) v = if p.1 = v then some p.2 else dictGet m v := by
  by_cases h : p.1 = v <;> simp [dictGet, List.find?, h]

theorem dictGet_append_of_none {m : List (Vertex × Nat)} {v : Vertex}
    (m2 : List (Vertex × Nat)) (h : dictGet m v = none) :
    dictGet (m ++ m2) v = dictGet m2 v := by
  induction m with
  | nil => rfl
  | cons p m ih =>
    rw [dictGet_cons] at h
    by_cases hp : p.1 = v
    · rw [if_pos hp] at h; exact absurd h (by simp)
    · rw [if_neg hp] at h
      simpa [dictGet_cons, hp] using ih h

theorem enumFrom_length (n : Nat) (l : List Vertex) :
    (enumFrom n l).length = l.length := by
  induction l generalizing n with
  | nil => rfl
  | cons v vs ih => simp [enumFrom, ih]

theorem enumFrom_append (n : Nat) (l1 l2 : List Vertex) :
    enumFrom n (l1 ++ l2) = enumFrom n l1 ++ enumFrom (n + l1.length) l2 := by
  induction l1 generalizing n with
  | nil => simp [enumFrom]
  | cons v vs ih =>
    show (v, n) :: enumFrom (n + 1) (vs ++ l2)
        = (v, n) :: (enumFrom (n + 1) vs ++ enumFrom (n + (vs.length + 1)) l2)
    rw [ih (n + 1), show n + 1 + vs.length = n + (vs.length + 1) by omega]

theorem dictGet_enumFrom_of_not_mem {v : Vertex} (n : Nat) {l : List Vertex}
    (h : v ∉ l) : dictGet (enumFrom n l) v = none := by
  induction l generalizing n with
  | nil => rfl
  | cons u us ih =>
    have h1 : ¬(u = v) := fun e => h (by simp [e])
    have h2 : v ∉ us := fun hm => h (List.mem_cons_of_mem _ hm)
    simp [enumFrom, dictGet_cons, h1, ih (n + 1) h2]

theorem dictGet_enumFrom_of_mem {v : Vertex} (n : Nat) {l : List Vertex}
    (h : v ∈ l) : ∃ i, dictGet (enumFrom n l) v = some i := by
  induction l generalizing n with
  | nil => exact absurd h (by simp)
  | cons u us ih =>
    by_cases hu : u = v
    · exact ⟨n, by simp [enumFrom, dictGet_cons, hu]⟩
    · have h2 : v ∈ us := by
        rcases List.mem_cons.mp h with h' | h'
        · exact absurd h'.symm hu
        · exact h'
      obtain ⟨i, hi⟩ := ih (n + 1) h2
      exact ⟨i, by simp [enumFrom, dictGet_cons, hu, hi]⟩

theorem internVertex_of_not_mem {v : Vertex} {l : List Vertex} (h : v ∉ l) :
    internVertex (enumFrom 0 l) v = (enumFrom 0 (l ++ [v]), l.length) := by
  simp [internVertex, dictGet_enumFrom_of_not_mem 0 h, enumFrom_append,
    enumFrom_length, enumFrom]

theorem internVertex_of_mem {v : Vertex} {l : List Vertex} (h : v ∈ l) :
    (internVertex (enumFrom 0 l) v).1 = enumFrom 0 l := by
  obtain ⟨i, hi⟩ := dictGet_enumFrom_of_mem 0 h
  simp [internVertex, hi]

theorem foldl_addNew_mem (x : Vertex) (l acc : List Vertex) :
    x ∈ l.foldl addNew acc ↔ x ∈ acc ∨ x ∈ l := by
  induction l generalizing acc with
  | nil => simp
  | cons v vs ih =>
    show x ∈ vs.foldl addNew (addNew acc v) ↔ _
    rw [ih]
    unfold addNew
    by_cases hv : v ∈ acc
    · rw [if_pos hv]
      constructor
      · rintro (h | h)
        · exact Or.inl h
        · exact Or.inr (List.mem_cons_of_mem _ h)
      · rintro (h | h)
        · exact Or.inl h
        · rcases List.mem_cons.mp h with h' | h'
          · exact Or.inl (h' ▸ hv)
          · exact Or.inr h'
    · rw [if_neg hv]
      simp [List.mem_append, List.mem_cons]
      tauto

theorem mem_firstSeen (x : Vertex) (vs : List Vertex) :
    x ∈ firstSeen vs ↔ x ∈ vs := by
  simpa using foldl_addNew_mem x vs []

theorem internAll_enumFrom (vs : List Vertex) :
    ∀ l : List Vertex, (internAll (enumFrom 0 l) vs).1 = enumFrom 0 (vs.foldl addNew l) := by
  induction vs with
  | nil => intro l; rfl
  | cons v vs ih =>
    intro l
    show (internAll (internVertex (enumFrom 0 l) v).1 vs).1 = _
    by_cases h : v ∈ l
    · rw [internVertex_of_mem h, ih l]
      simp [addNew, h]
    · rw [show (internVertex (enumFrom 0 l) v).1 = enumFrom 0 (l ++ [v]) by
        rw [internVertex_of_not_mem h], ih (l ++ [v])]
      simp [addNew, h]

theorem internAll_nil_map (vs : List Vertex) :
    (internAll [] vs).1 = enumFrom 0 (firstSeen vs) := by
  simpa [firstSeen] using internAll_enumFrom vs []

theorem internAll_append (m : List (Vertex × Nat)) (xs ys : List Vertex) :
    internAll m (xs ++ ys) =
      ((internAll (internAll m xs).1 ys).1,
       (internAll m xs).2 ++ (internAll (internAll m xs).1 ys).2) := by
  induction xs generalizing m with
  | nil => simp [internAll]
  | cons x xs ih => simp [internAll, ih]

theorem internAll_indices_length (vs : List Vertex) :
    ∀ m, (internAll m vs).2.length = vs.length := by
  induction vs with
  | nil => intro m; rfl
  | cons v vs ih => intro m; simp [internAll, ih]

/-- C1. Interning the same `Vertex` value twice into the dict of
`getDataFromMeshObjects` returns the same index both times (and the
second interning leaves the dict unchanged); when a stream of corner
vertices is processed in order from an empty dict, a vertex seen for the
first time at position `k` is assigned the index equal to the number of
distinct vertices seen before it, and re-encountering a structurally
equal vertex leaves the dict — hence the set of indices — unchanged. -/
theorem c1_intern_first_seen_order :
    (∀ (m : List (Vertex × Nat)) (v : Vertex),
        internVertex (internVertex m v).1 v
          = ((internVertex m v).1, (internVertex m v).2))
  ∧ (∀ (vs : List Vertex) (k : Nat) (hk : k < vs.length),
        vs.get ⟨k, hk⟩ ∉ vs.take k →
        (internAll [] vs).2[k]? = some ((firstSeen (vs.take k)).length))
  ∧ (∀ (vs : List Vertex) (k : Nat) (hk : k < vs.length),
        vs.get ⟨k, hk⟩ ∈ vs.take k →
        (internAll [] (vs.take (k + 1))).1 = (internAll [] (vs.take k)).1) := by
  refine ⟨?_, ?_, ?_⟩
  · intro m v
    cases h : dictGet m v with
    | some i => simp [internVertex, h]
    | none =>
      have h2 : dictGet (m ++ [(v, m.length)]) v = some m.length := by
        rw [dictGet_append_of_none _ h, dictGet_cons]
        simp
      simp [internVertex, h, h2]
  · intro vs k hk hnm
    have htake : vs.take (k + 1) = vs.take k ++ [vs.get ⟨k, hk⟩] := by
      rw [List.take_succ]
      simp [List.getElem?_eq_getElem hk, List.get_eq_getElem]
    have hsplit := internAll_append ([] : List (Vertex × Nat)) (vs.take (k + 1)) (vs.drop (k + 1))
    rw [List.take_append_drop] at hsplit
    have hlen1 : (internAll [] (vs.take (k + 1))).2.length = k + 1 := by
      rw [internAll_indices_length, List.length_take]
      omega
    have hget : (internAll [] vs).2[k]? = (internAll [] (vs.take (k + 1))).2[k]? := by
      rw [hsplit]
      exact List.getElem?_append_left (by omega)
    rw [hget, htake, internAll_append]
    have hlenA : (internAll [] (vs.take k)).2.length = k := by
      rw [internAll_indices_length, List.length_take]
      omega
    have hsingle : (internAll (internAll [] (vs.take k)).1 [vs.get ⟨k, hk⟩]).2
        = [(internVertex (internAll [] (vs.take k)).1 (vs.get ⟨k, hk⟩)).2] := by
      simp [internAll]
    rw [hsingle]
    have hconcat := List.getElem?_concat_length (internAll [] (vs.take k)).2
      ((internVertex (internAll [] (vs.take k)).1 (vs.get ⟨k, hk⟩)).2)
    rw [hlenA] at hconcat
    rw [hconcat]
    have hfs : vs.get ⟨k, hk⟩ ∉ firstSeen (vs.take k) := by
      rw [mem_firstSeen]
      exact hnm
    rw [internAll_nil_map, internVertex_of_not_mem hfs]
  · intro vs k hk hm
    have htake : vs.take (k + 1) = vs.take k ++ [vs.get ⟨k, hk⟩] := by
      rw [List.take_succ]
      simp [List.getElem?_eq_getElem hk, List.get_eq_getElem]
    rw [htake, internAll_append]
    show (internAll (internVertex (internAll [] (vs.take k)).1 (vs.get ⟨k, hk⟩)).1 []).1 = _
    show (internVertex (internAll [] (vs.take k)).1 (vs.get ⟨k, hk⟩)).1 = _
    have hfs : vs.get ⟨k, hk⟩ ∈ firstSeen (vs.take k) := by
      rw [mem_firstSeen]
      exact hm
    rw [internAll_nil_map, internVertex_of_mem hfs]

/-- Witness for C1: on the stream `[vA, vB, vA]`, position 1 holds the
first occurrence of `vB` and is assigned index 1 (one distinct vertex
seen before it), and position 2 re-encounters `vA`, leaving the dict
unchanged; interning `vA` twice into the empty dict returns index 0 both
times. -/
theorem c1_intern_first_seen_order_witness :
    (internVertex (internVertex [] vA).1 vA = ((internVertex [] vA).1, (internVertex [] vA).2)
      ∧ (internVertex [] vA).2 = 0)
  ∧ (internAll [] demoStream).2[1]? = some 1
  ∧ (internAll [] (demoStream.take 3)).1 = (internAll [] (demoStream.take 2)).1 := by
  refine ⟨⟨c1_intern_first_seen_order.1 [] vA, by decide⟩, ?_, ?_⟩
  · have h := c1_intern_first_seen_order.2.1 demoStream 1 (by decide) (by decide)
    rw [h]
    decide
  · exact c1_intern_first_seen_order.2.2 demoStream 2 (by decide) (by decide)

/-- C2. `normalizeJointWeights` on a 4-element weight list returns the
weights divided by their sum when the sum is nonzero — and the result
then sums to exactly 1 — and returns `[0,0,0,0]` when the sum is zero;
the division-by-zero branch is guarded. -/
theorem c2_normalizeJointWeights_four (w0 w1 w2 w3 : Rat) :
    (([w0, w1, w2, w3] : List Rat).sum ≠ 0 →
      normalizeJointWeights [w0, w1, w2, w3]
          = ([w0, w1, w2, w3] : List Rat).map (fun w => w / ([w0, w1, w2, w3] : List Rat).sum)
        ∧ (normalizeJointWeights [w0, w1, w2, w3]).sum = 1)
  ∧ (([w0, w1, w2, w3] : List Rat).sum = 0 →
      normalizeJointWeights [w0, w1, w2, w3] = [0, 0, 0, 0]) := by
  have hsum : ([w0, w1, w2, w3] : List Rat).sum = w0 + w1 + w2 + w3 := by
    simp [add_assoc]
  constructor
  · intro h
    have hne : w0 + w1 + w2 + w3 ≠ 0 := by rw [← hsum]; exact h
    have heq : normalizeJointWeights [w0, w1, w2, w3]
        = ([w0, w1, w2, w3] : List Rat).map (fun w => w / ([w0, w1, w2, w3] : List Rat).sum) := by
      unfold normalizeJointWeights
      rw [if_neg h]
      rfl
    refine ⟨heq, ?_⟩
    rw [heq]
    simp only [List.map_cons, List.map_nil, List.sum_cons, List.sum_nil, add_zero, hsum]
    field_simp
    ring
  · intro h
    unfold normalizeJointWeights
    rw [if_pos h]

/-- Witness for C2: on `[1, 1, 0, 0]` the sum is 2 ≠ 0, the result is
the input divided by 2 and sums to 1; on `[0, 0, 0, 0]` the sum is 0 and
the result is `[0, 0, 0, 0]`. -/
theorem c2_normalizeJointWeights_four_witness :
    (([1, 1, 0, 0] : List Rat).sum ≠ 0
      ∧ normalizeJointWeights [1, 1, 0, 0]
          = ([1, 1, 0, 0] : List Rat).map (fun w => w / ([1, 1, 0, 0] : List Rat).sum)
      ∧ (normalizeJointWeights [1, 1, 0, 0]).sum = 1)
  ∧ (([0, 0, 0, 0] : List Rat).sum = 0
      ∧ normalizeJointWeights [0, 0, 0, 0] = [0, 0, 0, 0]) := by
  constructor
  · have h : ([1, 1, 0, 0] : List Rat).sum ≠ 0 := by norm_num
    have h2 := (c2_normalizeJointWeights_four 1 1 0 0).1 h
    exact ⟨h, h2.1, h2.2⟩
  · have h : ([0, 0, 0, 0] : List Rat).sum = 0 := by norm_num
    exact ⟨h, (c2_normalizeJointWeights_four 0 0 0 0).2 h⟩

/-- Counterexample to C4: `vA` and `vAuv` share the position
x-coordinate but differ in UV, so they are unequal vertices (equality
compares every field) with identical hashes for any numeric hash
function — the hash is not computed over every field that participates
in equality. -/
theorem c4_hash_counterexample :
    vertexHash (fun q => q.num) vA = vertexHash (fun q => q.num) vAuv
      ∧ vA ≠ vAuv := by
  exact ⟨rfl, by decide⟩

/-- C4 as amended: `Vertex.__hash__` reads only `position.x`, so any two
vertices sharing that coordinate hash identically no matter how the
remaining fields differ; the hash is still consistent with (narrower
than) the all-field equality, so equal vertices always hash equally. -/
theorem c4_hash_only_position_x :
    (∀ (floatHash : Rat → Int) (v1 v2 : Vertex),
        v1.position.x = v2.position.x →
        vertexHash floatHash v1 = vertexHash floatHash v2)
  ∧ (∀ (floatHash : Rat → Int) (v1 v2 : Vertex),
        v1 = v2 → vertexHash floatHash v1 = vertexHash floatHash v2) := by
  constructor
  · intro fh v1 v2 h
    simp [vertexHash, h]
  · intro fh v1 v2 h
    rw [h]

/-- Witness for the amended C4: `vA` and `vAuv` share `position.x`, so
their hashes agree. -/
theorem c4_hash_only_position_x_witness :
    vA.position.x = vAuv.position.x
      ∧ vertexHash (fun q => q.num) vA = vertexHash (fun q => q.num) vAuv := by
  have h : vA.position.x = vAuv.position.x := rfl
  exact ⟨h, c4_hash_only_position_x.1 (fun q => q.num) vA vAuv h⟩

/-- C9. For an exported animation (ASCII name, counts within `uint32`),
the written `frameCount` equals `endFrame - startFrame + 1` from the
action's inclusive integer frame range, and the emitted pose stream is
exactly the frame-major concatenation over `range(start, end + 1)` —
frames in strictly ascending order, all of a frame's bones before the
next frame — with one 10-float record per bone per frame, hence
`frameCount × boneCount` records in total. -/
theorem c9_pose_stream_shape (mu : MathUtils) (armature : Armature) (animation : Action)
    (transform : Mat4) (s : Session)
    (hA : allAscii animation.name = true)
    (h1 : animation.frameStart ≤ animation.frameEnd)
    (h2 : animation.frameEnd - animation.frameStart + 1 < 4294967296)
    (h3 : (animation.name.length : Int) < 4294967296) :
    (∃ s' : Session,
      writeAnimation mu armature animation transform s =
        (s', Prim.u32 (animation.frameEnd - animation.frameStart + 1)
          :: Prim.u32 (animation.name.length : Int)
          :: Prim.bytes (animation.name.data.map Char.toNat)
          :: (intRange animation.frameStart (animation.frameEnd + 1)).flatMap
              (fun f => framePrims mu armature transform (some animation) f),
         some ()))
  ∧ (intRange animation.frameStart (animation.frameEnd + 1)).length
      = (animation.frameEnd - animation.frameStart + 1).toNat
  ∧ (intRange animation.frameStart (animation.frameEnd + 1)).Pairwise (· < ·)
  ∧ ((intRange animation.frameStart (animation.frameEnd + 1)).flatMap
        (fun f => framePrims mu armature transform (some animation) f)).length
      = (animation.frameEnd - animation.frameStart + 1).toNat
          * (armature.bones.length * 10) := by
  refine ⟨?_, ?_, intRange_pairwise _ _, ?_⟩
  · obtain ⟨s', h, _, _⟩ := writeAnimation_out mu armature animation transform s hA h1 h2 h3
    exact ⟨s', h⟩
  · rw [intRange_length]
    congr 1
    omega
  · rw [length_flatMap_const _ (armature.bones.length * 10)
      (fun f => framePrims_length mu armature transform (some animation) f), intRange_length]
    congr 1
    omega

/-- Witness for C9: the two-frame action `goodAction` on the one-bone
armature succeeds and writes 3 header primitives plus
`2 frames × 1 bone × 10` floats. -/
theorem c9_pose_stream_shape_witness :
    (writeAnimation constMathUtils demoArm goodAction mat4Id demoSession).2.2 = some ()
  ∧ (writeAnimation constMathUtils demoArm goodAction mat4Id demoSession).2.1.length = 23 := by
  obtain ⟨⟨s', heq⟩, hlen, hpw, hbody⟩ := c9_pose_stream_shape constMathUtils demoArm
    goodAction mat4Id demoSession (by decide) (by decide) (by decide) (by decide)
  exact ⟨by rw [heq], by decide⟩

/-- C7. For every sampled frame and bone, the pose record the animation
sampler emits is the decomposition of `M` — translation x,y,z, then the
rotation quaternion in component order w,x,y,z, then scale x,y,z —
where `M = inverse(parentWorldMatrix) @ boneWorldMatrix` when the bone
has a parent and `M = remapMatrix @ boneWorldMatrix` when it is a root
(the second conjunct spells out `poseSample`). -/
theorem c7_pose_record_decomposition (mu : MathUtils) (armature : Armature)
    (animation : Action) (transform : Mat4) (s : Session)
    (hA : allAscii animation.name = true)
    (h1 : animation.frameStart ≤ animation.frameEnd)
    (h2 : animation.frameEnd - animation.frameStart + 1 < 4294967296)
    (h3 : (animation.name.length : Int) < 4294967296) :
    (∃ s' : Session,
      writeAnimation mu armature animation transform s =
        (s', Prim.u32 (animation.frameEnd - animation.frameStart + 1)
          :: Prim.u32 (animation.name.length : Int)
          :: Prim.bytes (animation.name.data.map Char.toNat)
          :: (intRange animation.frameStart (animation.frameEnd + 1)).flatMap
              (fun f => armature.bones.enum.flatMap (fun p =>
                [Prim.f32 (mu.toTranslation (poseSample mu armature transform (some animation) f p)).x,
                 Prim.f32 (mu.toTranslation (poseSample mu armature transform (some animation) f p)).y,
                 Prim.f32 (mu.toTranslation (poseSample mu armature transform (some animation) f p)).z,
                 Prim.f32 (mu.toQuaternion (poseSample mu armature transform (some animation) f p)).w,
                 Prim.f32 (mu.toQuaternion (poseSample mu armature transform (some animation) f p)).x,
                 Prim.f32 (mu.toQuaternion (poseSample mu armature transform (some animation) f p)).y,
                 Prim.f32 (mu.toQuaternion (poseSample mu armature transform (some animation) f p)).z,
                 Prim.f32 (mu.toScale (poseSample mu armature transform (some animation) f p)).x,
                 Prim.f32 (mu.toScale (poseSample mu armature transform (some animation) f p)).y,
                 Prim.f32 (mu.toScale (poseSample mu armature transform (some animation) f p)).z])),
         some ()))
  ∧ (∀ (f : Int) (p : Nat × Bone),
      poseSample mu armature transform (some animation) f p
        = match p.2.parent with
          | some j =>
            Mat4.mul (mu.inverted (armature.poseMatrix (some animation) f j))
              (armature.poseMatrix (some animation) f p.1)
          | none => Mat4.mul transform (armature.poseMatrix (some animation) f p.1)) := by
  constructor
  · obtain ⟨s', h, _, _⟩ := writeAnimation_out mu armature animation transform s hA h1 h2 h3
    refine ⟨s', ?_⟩
    rw [h]
    simp [framePrims, poseFloats]
  · intro f p
    rfl

/-- Witness for C7: the two-bone armature (root and child) with the
two-frame action succeeds and emits `3 + 2 × 2 × 10` primitives. -/
theorem c7_pose_record_decomposition_witness :
    (writeAnimation constMathUtils demoArm2 goodAction mat4Id demoSession).2.2 = some ()
  ∧ (writeAnimation constMathUtils demoArm2 goodAction mat4Id demoSession).2.1.length = 43 := by
  obtain ⟨⟨s', heq⟩, hm⟩ := c7_pose_record_decomposition constMathUtils demoArm2
    goodAction mat4Id demoSession (by decide) (by decide) (by decide) (by decide)
  exact ⟨by rw [heq], by decide⟩

/-- C10. For every animation (with counts within `uint32`), the written
`nameLength` is the action name's character count and the name bytes are
its ASCII code points; when the name contains a non-ASCII character the
export aborts after the `frameCount` and `nameLength` primitives have
already been emitted, leaving the action bound and the file partially
written. -/
theorem c10_name_length_and_ascii_failure (mu : MathUtils) (armature : Armature)
    (animation : Action) (transform : Mat4) (s : Session)
    (h1 : animation.frameStart ≤ animation.frameEnd)
    (h2 : animation.frameEnd - animation.frameStart + 1 < 4294967296)
    (h3 : (animation.name.length : Int) < 4294967296) :
    (allAscii animation.name = true →
      ∃ (s' : Session) (rest : List Prim),
        writeAnimation mu armature animation transform s =
          (s', Prim.u32 (animation.frameEnd - animation.frameStart + 1)
            :: Prim.u32 (animation.name.length : Int)
            :: Prim.bytes (animation.name.data.map Char.toNat) :: rest, some ()))
  ∧ (allAscii animation.name = false →
      writeAnimation mu armature animation transform s =
        ({s with activeAction := some animation},
         [Prim.u32 (animation.frameEnd - animation.frameStart + 1),
          Prim.u32 (animation.name.length : Int)], none)) := by
  constructor
  · intro hA
    obtain ⟨s', h, _, _⟩ := writeAnimation_out mu armature animation transform s hA h1 h2 h3
    exact ⟨s', _, h⟩
  · intro hA
    set s3 : Session := {s with activeAction := some animation} with hs3
    have hc1 : (0 : Int) ≤ animation.frameEnd - animation.frameStart + 1
        ∧ animation.frameEnd - animation.frameStart + 1 < 4294967296 := ⟨by omega, h2⟩
    have hc2 : (0 : Int) ≤ (animation.name.length : Int)
        ∧ (animation.name.length : Int) < 4294967296 := ⟨Int.natCast_nonneg _, h3⟩
    have e1 : setAction (some animation) s = (s3, [], some ()) := rfl
    have e2 : writeUint32 (animation.frameEnd - animation.frameStart + 1) s3 =
        (s3, [Prim.u32 (animation.frameEnd - animation.frameStart + 1)], some ()) := by
      simp [writeUint32, hc1, emitE]
    have e3 : writeUint32 (animation.name.length : Int) s3 =
        (s3, [Prim.u32 (animation.name.length : Int)], some ()) := by
      simp [writeUint32, hc2, emitE]
    have e4 : writeString animation.name s3 = (s3, [], none) := by
      simp [writeString, hA, failE]
    have hall := seqE_out e1 (seqE_out e2 (seqE_out e3
      (seqE_fail (writeFrameSamples mu armature transform
        (intRange animation.frameStart (animation.frameEnd + 1))) e4)))
    rw [writeAnimation, hall]
    simp

/-- Witness for C10: the ASCII-named `goodAction` writes its header and
succeeds; the name of `badAction` contains `é`, so its export stops with
exactly the `frameCount` and `nameLength` primitives written. -/
theorem c10_name_length_and_ascii_failure_witness :
    (∃ (s' : Session) (rest : List Prim),
      writeAnimation constMathUtils demoArm goodAction mat4Id demoSession =
        (s', Prim.u32 (goodAction.frameEnd - goodAction.frameStart + 1)
          :: Prim.u32 (goodAction.name.length : Int)
          :: Prim.bytes (goodAction.name.data.map Char.toNat) :: rest, some ()))
  ∧ writeAnimation constMathUtils demoArm badAction mat4Id demoSession =
      ({demoSession with activeAction := some badAction},
       [Prim.u32 (badAction.frameEnd - badAction.frameStart + 1),
        Prim.u32 (badAction.name.length : Int)], none)
  ∧ allAscii badAction.name = false
  ∧ badAction.name.length = 1 := by
  refine ⟨?_, ?_, by decide, by decide⟩
  · exact (c10_name_length_and_ascii_failure constMathUtils demoArm goodAction mat4Id
      demoSession (by decide) (by decide) (by decide)).1 (by decide)
  · exact (c10_name_length_and_ascii_failure constMathUtils demoArm badAction mat4Id
      demoSession (by decide) (by decide) (by decide)).2 (by decide)

/-- C3 fails on the code: `ExportSkeletonOperator.execute` restores the
captured frame, action and pose mode only by straight-line statements
after the writes, so on a normal run the session is restored, but when
an exception is raised mid-export — here the non-ASCII action name of
`badAction` aborts `writeString` — the restore statements never run: the
armature is left in posed evaluation mode and bound to the failing
action, though the session started in rest mode with no action. -/
theorem c3_session_not_restored_on_failure :
    ((executeSkeleton constMathUtils demoArm [goodAction] mat4Id demoSession).1 = demoSession
      ∧ (executeSkeleton constMathUtils demoArm [goodAction] mat4Id demoSession).2.2 = some ())
  ∧ ((executeSkeleton constMathUtils demoArm [badAction] mat4Id demoSession).2.2 = none
      ∧ (executeSkeleton constMathUtils demoArm [badAction] mat4Id demoSession).1.posePosition
          = PoseMode.pose
      ∧ (executeSkeleton constMathUtils demoArm [badAction] mat4Id demoSession).1.activeAction
          = some badAction
      ∧ demoSession.posePosition = PoseMode.rest
      ∧ demoSession.activeAction = none) := by
  decide

/-- C5 fails on the code: when a vertex-group name has no matching bone,
`bones.find` returns `-1`, which is stored as the joint index while the
group's weight is kept, so the binding is out of range with nonzero
influence; baking completes, but binary vertex serialization aborts when
packing `-1` as `uint8`, after the vertex's eight floats were written. -/
theorem c5_unmatched_group_crashes_serialization :
    (computeJointBindings [missingGroupName] demoArm.bones [(0, 1)]).1 = [-1, 0, 0, 0]
  ∧ (computeJointBindings [missingGroupName] demoArm.bones [(0, 1)]).2 = [1, 0, 0, 0]
  ∧ bonesFind missingGroupName demoArm.bones = -1
  ∧ (writeVertices [unmatchedVertex] true demoSession).2.2 = none
  ∧ (writeVertices [unmatchedVertex] true demoSession).2.1.length = 8 := by
  decide

/-- C6 fails on the code: no capacity check exists; with 65536 faces the
mesh export writes the `hasSkeleton` byte, then aborts inside
`struct.pack("H", 65536)` — one byte of partial output precedes the
failure instead of an error detected before any write. -/
theorem c6_capacity_failure_after_first_byte (faces : List Face) (vertices : List Vertex)
    (s : Session) (h : faces.length = 65536) :
    executeMeshWrites false faces vertices s = (s, [Prim.pBool false], none) := by
  have e1 : writeBool false s = (s, [Prim.pBool false], some ()) := rfl
  have e2 : writeUint16 ((faces.length : Int)) s = (s, [], none) := by
    rw [h]
    norm_num [writeUint16, failE]
  rw [executeMeshWrites, seqE_out e1 (seqE_fail _ e2)]
  simp

/-- Witness for C6: a list of 65536 copies of `demoFace` makes the mesh
write phase abort with exactly the skeleton flag written. -/
theorem c6_capacity_failure_after_first_byte_witness :
    executeMeshWrites false (List.replicate 65536 demoFace) [] demoSession
      = (demoSession, [Prim.pBool false], none) :=
  c6_capacity_failure_after_first_byte (List.replicate 65536 demoFace) [] demoSession
    (by rw [List.length_replicate])

-- Lemmas for the joint-record encoder.

theorem bonesFind_name_at {bones : List Bone} (hnd : (bones.map Bone.name).Nodup) :
    ∀ (j : Nat), j < bones.length → bonesFind (boneNameAt bones j) bones = (j : Int) := by
  induction bones with
  | nil => intro j hj; exact absurd hj (by simp)
  | cons b rest ih =>
    intro j hj
    rw [List.map_cons, List.nodup_cons] at hnd
    cases j with
    | zero =>
      show (if b.name = b.name then (0 : Int)
        else
          let r := bonesFind b.name rest
          if r = -1 then -1 else r + 1) = ((0 : Nat) : Int)
      rw [if_pos rfl]
      rfl
    | succ j' =>
      have hj' : j' < rest.length := by simpa using hj
      have hg : rest[j']? = some rest[j'] := List.getElem?_eq_getElem hj'
      have hbn : boneNameAt rest j' = rest[j'].name := by
        simp [boneNameAt, hg]
      have hmem : boneNameAt rest j' ∈ rest.map Bone.name := by
        rw [hbn]
        exact List.mem_map_of_mem Bone.name (List.getElem_mem hj')
      have hneq : ¬(b.name = boneNameAt rest j') := by
        intro e
        exact hnd.1 (e ▸ hmem)
      have hr : bonesFind (boneNameAt rest j') rest = (j' : Int) := ih hnd.2 j' hj'
      have hne1 : ¬((j' : Int) = -1) := by omega
      have hname : boneNameAt (b :: rest) (j' + 1) = boneNameAt rest j' := rfl
      rw [hname]
      show (if b.name = boneNameAt rest j' then (0 : Int)
        else
          let r := bonesFind (boneNameAt rest j') rest
          if r = -1 then -1 else r + 1) = ((j' + 1 : Nat) : Int)
      rw [if_neg hneq]
      simp only [hr, if_neg hne1]
      push_cast
      ring

theorem writeJointsLoop_out (mu : MathUtils) (bones : List Bone) (transform : Mat4)
    (hnd : (bones.map Bone.name).Nodup)
    (hpar : ∀ b ∈ bones, b.parent.getD 0 < bones.length)
    (hcap : bones.length ≤ 256) :
    ∀ (sub : List Bone), (∀ b ∈ sub, b ∈ bones) → ∀ (s : Session),
      writeJointsLoop mu bones transform sub s =
        (s, sub.flatMap (fun b =>
          Prim.u8 (match b.parent with | some j => (j : Int) | none => 0)
            :: (mat4RowMajor (mu.inverted (Mat4.mul transform b.matrixLocal))).map Prim.f32),
         some ()) := by
  intro sub
  induction sub with
  | nil => intro _ _; rfl
  | cons b rest ih =>
    intro hsub s
    have hb : b ∈ bones := hsub b (by simp)
    have hrec := ih (fun x hx => hsub x (by simp [hx])) s
    have hhead : writeJointRecord mu bones transform b s =
        (s, Prim.u8 (match b.parent with | some j => (j : Int) | none => 0)
          :: (mat4RowMajor (mu.inverted (Mat4.mul transform b.matrixLocal))).map Prim.f32,
         some ()) := by
      cases hp : b.parent with
      | none =>
        have e1 : writeUint8 0 s = (s, [Prim.u8 0], some ()) := by
          norm_num [writeUint8, emitE]
        rw [writeJointRecord, hp,
          seqE_out e1 (writeFloatList_out
            (mat4RowMajor (mu.inverted (Mat4.mul transform b.matrixLocal))) s)]
        simp
      | some j =>
        have hj : j < bones.length := by
          have := hpar b hb
          rw [hp] at this
          simpa using this
        have hfind : bonesFind (boneNameAt bones j) bones = (j : Int) :=
          bonesFind_name_at hnd j hj
        have hcond : (0 : Int) ≤ (j : Int) ∧ (j : Int) < 256 := by
          constructor
          · exact Int.natCast_nonneg _
          · have : j < 256 := by omega
            exact_mod_cast this
        have e1 : writeUint8 (bonesFind (boneNameAt bones j) bones) s =
            (s, [Prim.u8 (j : Int)], some ()) := by
          rw [hfind]
          simp [writeUint8, hcond, emitE]
        rw [writeJointRecord, hp,
          seqE_out e1 (writeFloatList_out
            (mat4RowMajor (mu.inverted (Mat4.mul transform b.matrixLocal))) s)]
        simp
    rw [writeJointsLoop, seqE_out hhead hrec]
    simp

/-- C8. For every bone of the armature's ordered bone list (with the
bone names distinct, parent links in range, and at most 256 bones), the
skeleton encoder writes the position of the bone's parent in that same
list — `0` when the bone has no parent — followed by the 16 row-major
floats of the inverse of `remapMatrix @ boneLocalRestMatrix`; records
are emitted by folding over `armature.bones` in list order, the same
positional order the animation sampler walks (its `(index, bone)`
enumeration projects back to exactly `armature.bones`). -/
theorem c8_joint_records (mu : MathUtils) (armature : Armature) (transform : Mat4)
    (s : Session)
    (hnd : (armature.bones.map Bone.name).Nodup)
    (hpar : ∀ b ∈ armature.bones, b.parent.getD 0 < armature.bones.length)
    (hcap : armature.bones.length ≤ 256) :
    writeJoints mu armature transform s =
      (s, armature.bones.flatMap (fun b =>
        Prim.u8 (match b.parent with | some j => (j : Int) | none => 0)
          :: (mat4RowMajor (mu.inverted (Mat4.mul transform b.matrixLocal))).map Prim.f32),
       some ())
    ∧ armature.bones.enum.map Prod.snd = armature.bones := by
  constructor
  · exact writeJointsLoop_out mu armature.bones transform hnd hpar hcap
      armature.bones (fun _ h => h) s
  · exact List.enum_map_snd armature.bones

/-- Witness for C8: on the two-bone armature the root record carries
parent byte 0 and the child's record carries parent byte 0 — the
position of `"Root"` — at offset 17, right after the root's 17
primitives. -/
theorem c8_joint_records_witness :
    (writeJoints constMathUtils demoArm2 mat4Id demoSession =
      (demoSession, demoArm2.bones.flatMap (fun b =>
        Prim.u8 (match b.parent with | some j => (j : Int) | none => 0)
          :: (mat4RowMajor (constMathUtils.inverted (Mat4.mul mat4Id b.matrixLocal))).map
            Prim.f32),
       some ())
      ∧ demoArm2.bones.enum.map Prod.snd = demoArm2.bones)
  ∧ (writeJoints constMathUtils demoArm2 mat4Id demoSession).2.1[0]? = some (Prim.u8 0)
  ∧ (writeJoints constMathUtils demoArm2 mat4Id demoSession).2.1[17]? = some (Prim.u8 0)
  ∧ (writeJoints constMathUtils demoArm2 mat4Id demoSession).2.1.length = 34 := by
  refine ⟨c8_joint_records constMathUtils demoArm2 mat4Id demoSession
    (by decide) (by decide) (by decide), by decide, by decide, by decide⟩

end GameExport
